import Mathlib

/-!
# Amandine storage engine — shallow embedding

A shallow embedding of the Amandine collection storage engine
(`src/db.rs`, `src/error.rs`): an embedded, file-backed document store
that persists collections of uniquely-identified records as JSON files
under a root directory.

Modelling decisions:
* A collection file's content is modelled symbolically by `Content T`:
  `Content.records l` stands for the JSON text encoding the record
  sequence `l` (so `records []` is the literal two-character array
  `"[]"`), and `Content.invalid` stands for any file text that does not
  decode as a JSON array of the caller's record type.  This encodes the
  engine's sole contract with the serialization layer: encoding a
  sequence and decoding it back is lossless.
* A root directory is an association list from file names to contents;
  real directories have pairwise-distinct file names, which theorems
  assume where it matters.
* Operations return an `Outcome`: `ok` or `err` both carry the resulting
  directory (an `err` carrying the unchanged directory models "performs
  no write"), while `panic` models the `.unwrap()` on the serde decode
  result in `read_collection`, which aborts instead of returning.
* Transient I/O faults (failing `fs::read_to_string` / `fs::write` /
  `fs::create_dir_all` / `fs::rename` calls) are not modelled: the
  idealized filesystem performs every raw I/O action it is asked to.
* Record types are modelled by a type `T` together with the identifier
  accessor `uuidOf : T → String`, mirroring the `Data` trait's `uuid`.
-/

namespace Amandine

/-- The single error type of the engine (`error.rs`): a struct carrying
one human-readable message string. -/
structure DBError where
  msg : String
deriving DecidableEq, Repr

/-- `DBError("Collection does not exist")`, the spec's `NotFound` for a
missing collection file. -/
def collectionAbsentErr : DBError := ⟨"Collection does not exist"⟩

/-- `DBError("Data not found")`, the spec's `NotFound` for a missing
record identifier. -/
def dataAbsentErr : DBError := ⟨"Data not found"⟩

/-- `DBError("Data already exists")`, the spec's `DuplicateKey`. -/
def duplicateKeyErr : DBError := ⟨"Data already exists"⟩

/-- `DBError("Collection already exists")`, the spec's `AlreadyExists`. -/
def alreadyExistsErr : DBError := ⟨"Collection already exists"⟩

/-- `DBError("Path is not a directory")`, the spec's `InvalidPath`. -/
def invalidPathErr : DBError := ⟨"Path is not a directory"⟩

/-- Symbolic content of one collection file: either the JSON encoding of
a record sequence, or text that fails to decode as one. -/
inductive Content (T : Type) where
  | records : List T → Content T
  | invalid : Content T
deriving DecidableEq, Repr

/-- A root directory: file name ↦ file content. -/
abbrev Dir (T : Type) := List (String × Content T)

/-- Result of an engine operation: success and typed failure both carry
the resulting directory; `panic` is an unrecovered fault (the decode
`.unwrap()`), which yields no result at all. -/
inductive Outcome (α : Type) (σ : Type) where
  | ok : α → σ → Outcome α σ
  | err : DBError → σ → Outcome α σ
  | panic : Outcome α σ
deriving DecidableEq, Repr

/-- ASCII lowercasing of one character, as `str::to_lowercase` acts on
the ASCII range collection names are drawn from. -/
def asciiLowerChar (c : Char) : Char :=
  if 'A' ≤ c ∧ c ≤ 'Z' then Char.ofNat (c.toNat + 32) else c

/-- `str::to_lowercase`, character by character. -/
def lowerStr (s : String) : String :=
  ⟨s.data.map asciiLowerChar⟩

/-- File-name resolution shared by every operation: lowercase the
collection name and append `.json`. -/
def resolveName (name : String) : String :=
  lowerStr name ++ ".json"

/-- Look up the content of the file named `n` (file names in a real
directory are distinct, so first match suffices). -/
def lookupFile {T : Type} : Dir T → String → Option (Content T)
  | [], _ => none
  | (m, c) :: rest, n => if m = n then some c else lookupFile rest n

/-- Overwrite the content of the (first) file named `n`. -/
def setFile {T : Type} : Dir T → String → Content T → Dir T
  | [], _, _ => []
  | (m, c) :: rest, n, v =>
      if m = n then (m, v) :: rest else (m, c) :: setFile rest n v

/-- Remove the (first) file named `n`. -/
def removeFile {T : Type} : Dir T → String → Dir T
  | [], _ => []
  | (m, c) :: rest, n =>
      if m = n then rest else (m, c) :: removeFile rest n

/-- `Database::read_collection`: resolve the file name; `NotFound` if the
file is absent; otherwise decode it — a file that is not a valid JSON
array of `T` hits `serde_json::from_str(..).unwrap()` and panics. -/
def read_collection {T : Type} (d : Dir T) (collection : String) :
    Outcome (List T) (Dir T) :=
  match lookupFile d (resolveName collection) with
  | none => .err collectionAbsentErr d
  | some (.records l) => .ok l d
  | some .invalid => .panic

/-- `Database::write_collection`: resolve the file name; `NotFound` if
the file is absent; otherwise overwrite it with the encoding of `data`. -/
def write_collection {T : Type} (d : Dir T) (collection : String)
    (data : List T) : Outcome Unit (Dir T) :=
  match lookupFile d (resolveName collection) with
  | none => .err collectionAbsentErr d
  | some _ => .ok () (setFile d (resolveName collection) (.records data))

/-- `Database::create_collection`: `AlreadyExists` if the resolved file
exists; otherwise create it holding the literal empty array `[]`. -/
def create_collection {T : Type} (d : Dir T) (name : String) :
    Outcome Unit (Dir T) :=
  if (lookupFile d (resolveName name)).isSome then
    .err alreadyExistsErr d
  else
    .ok () ((resolveName name, Content.records ([] : List T)) :: d)

/-- `Database::rename_collection`: `NotFound` if the old file is absent,
`AlreadyExists` if the new file exists; otherwise a filesystem rename. -/
def rename_collection {T : Type} (d : Dir T) (name new_name : String) :
    Outcome Unit (Dir T) :=
  match lookupFile d (resolveName name) with
  | none => .err collectionAbsentErr d
  | some c =>
      if (lookupFile d (resolveName new_name)).isSome then
        .err alreadyExistsErr d
      else
        .ok () ((resolveName new_name, c) :: removeFile d (resolveName name))

/-- The scan of `Database::insert`'s `for` loop: does some stored record
carry the identifier `k`? -/
def containsId {T : Type} (uuidOf : T → String) (k : String) :
    List T → Bool
  | [] => false
  | y :: ys => if uuidOf y = k then true else containsId uuidOf k ys

/-- `Database::insert`: read the sequence; `DuplicateKey` if some stored
record already carries the new record's identifier (no write); otherwise
append and write the full sequence back. -/
def insert {T : Type} (uuidOf : T → String) (d : Dir T)
    (collection : String) (data : T) : Outcome Unit (Dir T) :=
  match read_collection d collection with
  | .panic => .panic
  | .err e d' => .err e d'
  | .ok l d' =>
      if containsId uuidOf (uuidOf data) l then
        .err duplicateKeyErr d'
      else
        write_collection d' collection (l ++ [data])

/-- The scan of `Database::query`'s `for` loop: first stored record
carrying the identifier `k`, if any. -/
def findById {T : Type} (uuidOf : T → String) (k : String) :
    List T → Option T
  | [] => none
  | y :: ys => if uuidOf y = k then some y else findById uuidOf k ys

/-- `Database::query`: read the sequence and return a copy of the first
record with the given identifier; `NotFound` otherwise (never writes). -/
def query {T : Type} (uuidOf : T → String) (d : Dir T)
    (collection : String) (uuid : String) : Outcome T (Dir T) :=
  match read_collection d collection with
  | .panic => .panic
  | .err e d' => .err e d'
  | .ok l d' =>
      match findById uuidOf uuid l with
      | some x => .ok x d'
      | none => .err dataAbsentErr d'

/-- The loop of `Database::update`: replace, in place, the first record
carrying `data`'s identifier; `none` when no record matches. -/
def updateList {T : Type} (uuidOf : T → String) (data : T) :
    List T → Option (List T)
  | [] => none
  | y :: ys =>
      if uuidOf y = uuidOf data then some (data :: ys)
      else (updateList uuidOf data ys).map (y :: ·)

/-- `Database::update`: read the sequence; replace the first record with
a matching identifier and write the full sequence back; `NotFound` (and
no write) when no record matches. -/
def update {T : Type} (uuidOf : T → String) (d : Dir T)
    (collection : String) (data : T) : Outcome Unit (Dir T) :=
  match read_collection d collection with
  | .panic => .panic
  | .err e d' => .err e d'
  | .ok l d' =>
      match updateList uuidOf data l with
      | some l' => write_collection d' collection l'
      | none => .err dataAbsentErr d'

/-- The loop of `Database::delete`: remove the first record carrying the
identifier `k`, the rest shifting up; `none` when no record matches. -/
def deleteList {T : Type} (uuidOf : T → String) (k : String) :
    List T → Option (List T)
  | [] => none
  | y :: ys =>
      if uuidOf y = k then some ys
      else (deleteList uuidOf k ys).map (y :: ·)

/-- `Database::delete`: read the sequence; remove the first record with
the given identifier and write the full sequence back; `NotFound` (and
no write) when no record matches. -/
def delete {T : Type} (uuidOf : T → String) (d : Dir T)
    (collection : String) (uuid : String) : Outcome Unit (Dir T) :=
  match read_collection d collection with
  | .panic => .panic
  | .err e d' => .err e d'
  | .ok l d' =>
      match deleteList uuidOf uuid l with
      | some l' => write_collection d' collection l'
      | none => .err dataAbsentErr d'

/-- `Database::list`: the full deserialized sequence, as stored. -/
def list {T : Type} (d : Dir T) (collection : String) :
    Outcome (List T) (Dir T) :=
  read_collection d collection

/-- A filesystem path, as its list of components from the root. -/
abbrev FsPath := List String

/-- The filesystem outside the database root, for `connect`: each known
path is marked as a directory (`true`) or a file (`false`). -/
structure OuterFS where
  nodes : List (FsPath × Bool)
deriving DecidableEq, Repr

/-- Look up a path's node kind. -/
def lookupNode : List (FsPath × Bool) → FsPath → Option Bool
  | [], _ => none
  | (q, b) :: rest, p => if q = p then some b else lookupNode rest p

/-- `Path::exists`. -/
def pathLives (fs : OuterFS) (p : FsPath) : Bool :=
  (lookupNode fs.nodes p).isSome

/-- `Path::is_dir`. -/
def pathIsDir (fs : OuterFS) (p : FsPath) : Bool :=
  match lookupNode fs.nodes p with
  | some b => b
  | none => false

/-- All ancestors of a path (the root included), the path itself last. -/
def ancestors : FsPath → List FsPath
  | [] => [[]]
  | a :: rest => [] :: (ancestors rest).map (a :: ·)

/-- `fs::create_dir_all`: create the path and every missing ancestor as
directories (the idealized filesystem never fails the raw creation). -/
def create_dir_all (fs : OuterFS) (p : FsPath) : OuterFS :=
  ⟨((ancestors p).filterMap fun q =>
      if (lookupNode fs.nodes q).isSome then none else some (q, true))
    ++ fs.nodes⟩

/-- The database handle: its one attribute is the root path. -/
structure Database where
  path : FsPath
deriving DecidableEq, Repr

/-- `Database::new()`: an empty root path. -/
def Database.new : Database := ⟨[]⟩

/-- `Database::connect`: `InvalidPath` if the path exists and is not a
directory; create it (with all missing ancestors) if absent; on success
re-point the handle's root path at it. -/
def connect (fs : OuterFS) (db : Database) (p : FsPath) :
    Outcome Unit (Database × OuterFS) :=
  if pathLives fs p then
    if ¬ pathIsDir fs p then .err invalidPathErr (db, fs)
    else .ok () ({ path := p }, fs)
  else
    .ok () ({ path := p }, create_dir_all fs p)

/-- The uniqueness invariant: no two records of the sequence share an
identifier. -/
def uuidNodup {T : Type} (uuidOf : T → String) (l : List T) : Prop :=
  (l.map uuidOf).Nodup

/-- One successful record-mutating operation (insert, update or delete)
on the directory, with any argument. -/
inductive RecOpStep {T : Type} (uuidOf : T → String) :
    Dir T → Dir T → Prop where
  | insert (d d' : Dir T) (c : String) (x : T) :
      insert uuidOf d c x = .ok () d' → RecOpStep uuidOf d d'
  | update (d d' : Dir T) (c : String) (x : T) :
      update uuidOf d c x = .ok () d' → RecOpStep uuidOf d d'
  | delete (d d' : Dir T) (c : String) (k : String) :
      delete uuidOf d c k = .ok () d' → RecOpStep uuidOf d d'

/-- Reachability by any finite sequence of successful record-mutating
operations. -/
abbrev Reach {T : Type} (uuidOf : T → String) : Dir T → Dir T → Prop :=
  Relation.ReflTransGen (RecOpStep uuidOf)

/-- A concrete record type used to instantiate the generic engine on
explicit inputs: an identifier string plus one payload field. -/
structure Rec where
  uuid : String
  val : Nat
deriving DecidableEq, Repr

theorem lookupFile_eq_none {T : Type} (d : Dir T) (n : String)
    (h : ∀ k ∈ d.map Prod.fst, k ≠ n) : lookupFile d n = none := by
  induction d with
  | nil => rfl
  | cons hd tl ih =>
      obtain ⟨m, c⟩ := hd
      have hm : m ≠ n := h m (by simp)
      simp only [lookupFile, if_neg hm]
      exact ih fun k hk => h k (by simp [hk])

theorem lookupFile_setFile_self {T : Type} (d : Dir T) (n : String)
    (v : Content T) (h : (lookupFile d n).isSome) :
    lookupFile (setFile d n v) n = some v := by
  induction d with
  | nil => simp [lookupFile] at h
  | cons hd tl ih =>
      obtain ⟨m, c⟩ := hd
      by_cases hm : m = n
      · simp [lookupFile, setFile, hm]
      · simp only [lookupFile, setFile, if_neg hm] at h ⊢
        exact ih h

theorem lookupFile_setFile_ne {T : Type} (d : Dir T) (n m : String)
    (v : Content T) (h : m ≠ n) :
    lookupFile (setFile d n v) m = lookupFile d m := by
  induction d with
  | nil => rfl
  | cons hd tl ih =>
      obtain ⟨k, c⟩ := hd
      by_cases hk : k = n
      · subst hk
        simp [lookupFile, setFile, Ne.symm h]
      · simp [lookupFile, setFile, hk, ih]

theorem lookupFile_removeFile_self {T : Type} (d : Dir T) (n : String)
    (hnd : (d.map Prod.fst).Nodup) :
    lookupFile (removeFile d n) n = none := by
  induction d with
  | nil => rfl
  | cons hd tl ih =>
      obtain ⟨m, c⟩ := hd
      simp only [List.map_cons, List.nodup_cons] at hnd
      by_cases hm : m = n
      · subst hm
        simp only [removeFile, if_pos rfl]
        exact lookupFile_eq_none tl m fun k hk he => hnd.1 (he ▸ hk)
      · simp only [removeFile, if_neg hm, lookupFile, if_neg hm]
        exact ih hnd.2

theorem containsId_eq_false_iff {T : Type} (uuidOf : T → String)
    (k : String) (l : List T) :
    containsId uuidOf k l = false ↔ ∀ x ∈ l, uuidOf x ≠ k := by
  induction l with
  | nil => simp [containsId]
  | cons y ys ih =>
      by_cases hy : uuidOf y = k <;>
        simp [containsId, hy, ih]

theorem containsId_eq_true_iff {T : Type} (uuidOf : T → String)
    (k : String) (l : List T) :
    containsId uuidOf k l = true ↔ ∃ x ∈ l, uuidOf x = k := by
  induction l with
  | nil => simp [containsId]
  | cons y ys ih =>
      by_cases hy : uuidOf y = k <;>
        simp [containsId, hy, ih]

theorem findById_eq_none_iff {T : Type} (uuidOf : T → String)
    (k : String) (l : List T) :
    findById uuidOf k l = none ↔ ∀ x ∈ l, uuidOf x ≠ k := by
  induction l with
  | nil => simp [findById]
  | cons y ys ih =>
      by_cases hy : uuidOf y = k <;>
        simp [findById, hy, ih]

theorem updateList_eq_none_iff {T : Type} (uuidOf : T → String) (x : T)
    (l : List T) :
    updateList uuidOf x l = none ↔ ∀ z ∈ l, uuidOf z ≠ uuidOf x := by
  induction l with
  | nil => simp [updateList]
  | cons y ys ih =>
      by_cases hy : uuidOf y = uuidOf x <;>
        simp [updateList, hy, ih]

theorem updateList_eq_some {T : Type} (uuidOf : T → String) (x : T)
    (l l' : List T) (h : updateList uuidOf x l = some l') :
    ∃ p y s, l = p ++ y :: s ∧ (∀ z ∈ p, uuidOf z ≠ uuidOf x) ∧
      uuidOf y = uuidOf x ∧ l' = p ++ x :: s := by
  induction l generalizing l' with
  | nil => simp [updateList] at h
  | cons y ys ih =>
      by_cases hy : uuidOf y = uuidOf x
      · refine ⟨[], y, ys, by simp, by simp, hy, ?_⟩
        simp [updateList, hy] at h
        simp [← h]
      · simp only [updateList, if_neg hy, Option.map_eq_some'] at h
        obtain ⟨m, hm, rfl⟩ := h
        obtain ⟨p, y', s, hl, hp, hy', hm'⟩ := ih m hm
        exact ⟨y :: p, y', s, by simp [hl], by
          intro z hz
          rcases List.mem_cons.mp hz with hz | hz
          · exact hz ▸ hy
          · exact hp z hz, hy', by simp [hm']⟩

theorem deleteList_eq_none_iff {T : Type} (uuidOf : T → String)
    (k : String) (l : List T) :
    deleteList uuidOf k l = none ↔ ∀ z ∈ l, uuidOf z ≠ k := by
  induction l with
  | nil => simp [deleteList]
  | cons y ys ih =>
      by_cases hy : uuidOf y = k <;>
        simp [deleteList, hy, ih]

theorem deleteList_eq_some {T : Type} (uuidOf : T → String) (k : String)
    (l l' : List T) (h : deleteList uuidOf k l = some l') :
    ∃ p y s, l = p ++ y :: s ∧ (∀ z ∈ p, uuidOf z ≠ k) ∧
      uuidOf y = k ∧ l' = p ++ s := by
  induction l generalizing l' with
  | nil => simp [deleteList] at h
  | cons y ys ih =>
      by_cases hy : uuidOf y = k
      · refine ⟨[], y, ys, by simp, by simp, hy, ?_⟩
        simp [deleteList, hy] at h
        simp [← h]
      · simp only [deleteList, if_neg hy, Option.map_eq_some'] at h
        obtain ⟨m, hm, rfl⟩ := h
        obtain ⟨p, y', s, hl, hp, hy', hm'⟩ := ih m hm
        exact ⟨y :: p, y', s, by simp [hl], by
          intro z hz
          rcases List.mem_cons.mp hz with hz | hz
          · exact hz ▸ hy
          · exact hp z hz, hy', by simp [hm']⟩

theorem uuidNodup_append_singleton {T : Type} (uuidOf : T → String)
    (l : List T) (x : T) (hl : uuidNodup uuidOf l)
    (hx : ∀ z ∈ l, uuidOf z ≠ uuidOf x) :
    uuidNodup uuidOf (l ++ [x]) := by
  simp only [uuidNodup, List.map_append, List.map_cons, List.map_nil,
    List.nodup_append] at *
  refine ⟨hl, List.nodup_singleton _, ?_⟩
  intro a ha hb
  simp only [List.mem_singleton] at hb
  obtain ⟨z, hz, rfl⟩ := List.mem_map.mp ha
  exact hx z hz (hb ▸ rfl)

theorem uuidNodup_updateList {T : Type} (uuidOf : T → String) (x : T)
    (l l' : List T) (h : updateList uuidOf x l = some l')
    (hl : uuidNodup uuidOf l) : uuidNodup uuidOf l' := by
  obtain ⟨p, y, s, rfl, _, hy, rfl⟩ := updateList_eq_some uuidOf x l l' h
  have : (p ++ x :: s).map uuidOf = (p ++ y :: s).map uuidOf := by
    simp [hy]
  unfold uuidNodup at *
  rw [this]
  exact hl

theorem uuidNodup_deleteList {T : Type} (uuidOf : T → String) (k : String)
    (l l' : List T) (h : deleteList uuidOf k l = some l')
    (hl : uuidNodup uuidOf l) : uuidNodup uuidOf l' := by
  obtain ⟨p, y, s, rfl, _, _, rfl⟩ := deleteList_eq_some uuidOf k l l' h
  have hsub : (p ++ s).Sublist (p ++ y :: s) :=
    (List.sublist_cons_self y s).append_left p
  exact List.Nodup.sublist (hsub.map uuidOf) hl

theorem insert_ok_inv {T : Type} (uuidOf : T → String) (d d' : Dir T)
    (c : String) (x : T) (h : insert uuidOf d c x = .ok () d') :
    ∃ l, lookupFile d (resolveName c) = some (.records l) ∧
      containsId uuidOf (uuidOf x) l = false ∧
      d' = setFile d (resolveName c) (.records (l ++ [x])) := by
  cases hlook : lookupFile d (resolveName c) with
  | none => simp [insert, read_collection, hlook] at h
  | some ct =>
      cases ct with
      | invalid => simp [insert, read_collection, hlook] at h
      | records l =>
          by_cases hc : containsId uuidOf (uuidOf x) l = true
          · simp [insert, read_collection, hlook, hc] at h
          · have hc' : containsId uuidOf (uuidOf x) l = false := by
              simpa using hc
            refine ⟨l, rfl, hc', ?_⟩
            simp [insert, read_collection, hlook, hc',
              write_collection] at h
            exact h.symm

theorem update_ok_inv {T : Type} (uuidOf : T → String) (d d' : Dir T)
    (c : String) (x : T) (h : update uuidOf d c x = .ok () d') :
    ∃ l l', lookupFile d (resolveName c) = some (.records l) ∧
      updateList uuidOf x l = some l' ∧
      d' = setFile d (resolveName c) (.records l') := by
  cases hlook : lookupFile d (resolveName c) with
  | none => simp [update, read_collection, hlook] at h
  | some ct =>
      cases ct with
      | invalid => simp [update, read_collection, hlook] at h
      | records l =>
          cases hu : updateList uuidOf x l with
          | none => simp [update, read_collection, hlook, hu] at h
          | some l' =>
              refine ⟨l, l', rfl, hu, ?_⟩
              simp [update, read_collection, hlook, hu,
                write_collection] at h
              exact h.symm

theorem delete_ok_inv {T : Type} (uuidOf : T → String) (d d' : Dir T)
    (c : String) (k : String) (h : delete uuidOf d c k = .ok () d') :
    ∃ l l', lookupFile d (resolveName c) = some (.records l) ∧
      deleteList uuidOf k l = some l' ∧
      d' = setFile d (resolveName c) (.records l') := by
  cases hlook : lookupFile d (resolveName c) with
  | none => simp [delete, read_collection, hlook] at h
  | some ct =>
      cases ct with
      | invalid => simp [delete, read_collection, hlook] at h
      | records l =>
          cases hu : deleteList uuidOf k l with
          | none => simp [delete, read_collection, hlook, hu] at h
          | some l' =>
              refine ⟨l, l', rfl, hu, ?_⟩
              simp [delete, read_collection, hlook, hu,
                write_collection] at h
              exact h.symm

theorem recOpStep_preserves {T : Type} (uuidOf : T → String) (key : String)
    (d d' : Dir T) (hstep : RecOpStep uuidOf d d')
    (hinv : ∀ l, lookupFile d key = some (.records l) → uuidNodup uuidOf l) :
    ∀ l, lookupFile d' key = some (.records l) → uuidNodup uuidOf l := by
  cases hstep with
  | insert c x h =>
      obtain ⟨l0, hlook, hc, rfl⟩ := insert_ok_inv uuidOf d _ c x h
      intro l hl
      by_cases hk : resolveName c = key
      · subst hk
        rw [lookupFile_setFile_self d _ _ (by simp [hlook])] at hl
        simp only [Option.some_inj, Content.records.injEq] at hl
        subst hl
        exact uuidNodup_append_singleton uuidOf l0 x (hinv l0 hlook)
          ((containsId_eq_false_iff uuidOf (uuidOf x) l0).mp hc)
      · rw [lookupFile_setFile_ne d _ key _ fun he => hk he.symm] at hl
        exact hinv l hl
  | update c x h =>
      obtain ⟨l0, l1, hlook, hu, rfl⟩ := update_ok_inv uuidOf d _ c x h
      intro l hl
      by_cases hk : resolveName c = key
      · subst hk
        rw [lookupFile_setFile_self d _ _ (by simp [hlook])] at hl
        simp only [Option.some_inj, Content.records.injEq] at hl
        subst hl
        exact uuidNodup_updateList uuidOf x l0 l1 hu (hinv l0 hlook)
      · rw [lookupFile_setFile_ne d _ key _ fun he => hk he.symm] at hl
        exact hinv l hl
  | delete c k h =>
      obtain ⟨l0, l1, hlook, hu, rfl⟩ := delete_ok_inv uuidOf d _ c k h
      intro l hl
      by_cases hk : resolveName c = key
      · subst hk
        rw [lookupFile_setFile_self d _ _ (by simp [hlook])] at hl
        simp only [Option.some_inj, Content.records.injEq] at hl
        subst hl
        exact uuidNodup_deleteList uuidOf k l0 l1 hu (hinv l0 hlook)
      · rw [lookupFile_setFile_ne d _ key _ fun he => hk he.symm] at hl
        exact hinv l hl

theorem reach_preserves {T : Type} (uuidOf : T → String) (key : String)
    (d1 d2 : Dir T) (hr : Reach uuidOf d1 d2)
    (hinv : ∀ l, lookupFile d1 key = some (.records l) → uuidNodup uuidOf l) :
    ∀ l, lookupFile d2 key = some (.records l) → uuidNodup uuidOf l := by
  induction hr with
  | refl => exact hinv
  | tail _ hstep ih => exact recOpStep_preserves uuidOf key _ _ hstep ih

theorem create_collection_ok_inv {T : Type} (d d' : Dir T) (name : String)
    (h : create_collection d name = .ok () d') :
    lookupFile d (resolveName name) = none ∧
    d' = (resolveName name, Content.records ([] : List T)) :: d := by
  by_cases hex : (lookupFile d (resolveName name)).isSome
  · simp [create_collection, hex] at h
  · refine ⟨Option.not_isSome_iff_eq_none.mp hex, ?_⟩
    simp [create_collection, hex] at h
    exact h.symm

theorem updateList_split {T : Type} (uuidOf : T → String) (r y : T)
    (p s : List T) (hp : ∀ z ∈ p, uuidOf z ≠ uuidOf r)
    (hy : uuidOf y = uuidOf r) :
    updateList uuidOf r (p ++ y :: s) = some (p ++ r :: s) := by
  induction p with
  | nil => simp [updateList, hy]
  | cons a as ih =>
      have ha : uuidOf a ≠ uuidOf r := hp a (by simp)
      simp [updateList, ha, ih fun z hz => hp z (by simp [hz])]

theorem deleteList_split {T : Type} (uuidOf : T → String) (k : String)
    (y : T) (p s : List T) (hp : ∀ z ∈ p, uuidOf z ≠ k)
    (hy : uuidOf y = k) :
    deleteList uuidOf k (p ++ y :: s) = some (p ++ s) := by
  induction p with
  | nil => simp [deleteList, hy]
  | cons a as ih =>
      have ha : uuidOf a ≠ k := hp a (by simp)
      simp [deleteList, ha, ih fun z hz => hp z (by simp [hz])]

theorem self_mem_ancestors (p : FsPath) : p ∈ ancestors p := by
  induction p with
  | nil => simp [ancestors]
  | cons a rest ih =>
      simp only [ancestors, List.mem_cons, List.mem_map]
      exact Or.inr ⟨rest, ih, rfl⟩

theorem lookupNode_append_of_none (a b : List (FsPath × Bool)) (q : FsPath)
    (h : lookupNode a q = none) :
    lookupNode (a ++ b) q = lookupNode b q := by
  induction a with
  | nil => rfl
  | cons hd tl ih =>
      obtain ⟨m, v⟩ := hd
      by_cases hm : m = q
      · simp [lookupNode, hm] at h
      · simp only [lookupNode, if_neg hm] at h
        simpa [lookupNode, hm] using ih h

theorem lookupNode_append_of_some (a b : List (FsPath × Bool)) (q : FsPath)
    (v : Bool) (h : lookupNode a q = some v) :
    lookupNode (a ++ b) q = some v := by
  induction a with
  | nil => simp [lookupNode] at h
  | cons hd tl ih =>
      obtain ⟨m, w⟩ := hd
      by_cases hm : m = q
      · simp only [lookupNode, if_pos hm] at h
        simp [lookupNode, hm, h]
      · simp only [lookupNode, if_neg hm] at h
        simpa [lookupNode, hm] using ih h

theorem lookupNode_created (L : List FsPath)
    (nodes : List (FsPath × Bool)) (q : FsPath) (hq : q ∈ L)
    (hnone : lookupNode nodes q = none) :
    lookupNode (L.filterMap fun r =>
        if (lookupNode nodes r).isSome then none else some (r, true)) q
      = some true := by
  induction L with
  | nil => simp at hq
  | cons a as ih =>
      rcases List.mem_cons.mp hq with rfl | hq'
      · simp [List.filterMap_cons, hnone, lookupNode]
      · by_cases ha : (lookupNode nodes a).isSome
        · simpa [List.filterMap_cons, ha] using ih hq'
        · by_cases haq : a = q
          · subst haq
            simp [List.filterMap_cons, ha, lookupNode]
          · simpa [List.filterMap_cons, ha, lookupNode, haq] using ih hq'

theorem lookupNode_created_none (L : List FsPath)
    (nodes : List (FsPath × Bool)) (q : FsPath)
    (hsome : (lookupNode nodes q).isSome) :
    lookupNode (L.filterMap fun r =>
        if (lookupNode nodes r).isSome then none else some (r, true)) q
      = none := by
  induction L with
  | nil => rfl
  | cons a as ih =>
      by_cases ha : (lookupNode nodes a).isSome
      · simpa [List.filterMap_cons, ha] using ih
      · have haq : a ≠ q := by
          intro he
          rw [he] at ha
          exact ha hsome
        simpa [List.filterMap_cons, ha, lookupNode, haq] using ih

theorem pathLives_create_dir_all (fs : OuterFS) (p q : FsPath)
    (hq : q ∈ ancestors p) :
    pathLives (create_dir_all fs p) q = true := by
  simp only [pathLives, create_dir_all]
  cases hv : lookupNode fs.nodes q with
  | none =>
      rw [lookupNode_append_of_some _ _ _ _
        (lookupNode_created (ancestors p) fs.nodes q hq hv)]
      rfl
  | some v =>
      rw [lookupNode_append_of_none _ _ _
        (lookupNode_created_none (ancestors p) fs.nodes q (by simp [hv])),
        hv]
      rfl

theorem pathIsDir_create_dir_all (fs : OuterFS) (p q : FsPath)
    (hq : q ∈ ancestors p) (hnone : lookupNode fs.nodes q = none) :
    pathIsDir (create_dir_all fs p) q = true := by
  simp only [pathIsDir, create_dir_all]
  rw [lookupNode_append_of_some _ _ _ _
    (lookupNode_created (ancestors p) fs.nodes q hq hnone)]

/-- C1: when the stored sequence of a collection already contains a
record with the new record's identifier, `insert` fails with the
duplicate-key error and performs no write: the directory carried by the
failure is the unchanged one, and when the sequence held exactly one
record with that identifier, the stored sequence still holds exactly
one. -/
theorem insert_duplicate_fails_no_write {T : Type} (uuidOf : T → String)
    (d : Dir T) (c : String) (r : T) (l : List T)
    (hread : lookupFile d (resolveName c) = some (.records l))
    (hdup : ∃ x ∈ l, uuidOf x = uuidOf r) :
    insert uuidOf d c r = .err duplicateKeyErr d ∧
      (l.countP (fun x => uuidOf x = uuidOf r) = 1 →
        ∃ l', lookupFile d (resolveName c) = some (.records l') ∧
          l'.countP (fun x => uuidOf x = uuidOf r) = 1) := by
  have hc : containsId uuidOf (uuidOf r) l = true :=
    (containsId_eq_true_iff uuidOf (uuidOf r) l).mpr hdup
  refine ⟨?_, fun h1 => ⟨l, hread, h1⟩⟩
  simp [insert, read_collection, hread, hc]

theorem insert_duplicate_fails_no_write_witness :
    insert Rec.uuid [("users.json", Content.records [Rec.mk "u1" 1])]
        "users" (Rec.mk "u1" 2)
      = .err duplicateKeyErr
          [("users.json", Content.records [Rec.mk "u1" 1])] ∧
      (List.countP (fun x => Rec.uuid x = Rec.uuid (Rec.mk "u1" 2))
          [Rec.mk "u1" 1] = 1 →
        ∃ l', lookupFile [("users.json", Content.records [Rec.mk "u1" 1])]
            (resolveName "users") = some (Content.records l') ∧
          List.countP (fun x => Rec.uuid x = Rec.uuid (Rec.mk "u1" 2)) l'
            = 1) :=
  insert_duplicate_fails_no_write Rec.uuid
    [("users.json", Content.records [Rec.mk "u1" 1])] "users"
    (Rec.mk "u1" 2) [Rec.mk "u1" 1] (by decide)
    ⟨Rec.mk "u1" 1, by decide, rfl⟩

/-- C3: inserting a record `r` into an existing, empty collection and
then querying `r`'s identifier succeeds and returns `r` itself — the
round-trip through the stored encoding is lossless. -/
theorem insert_then_query_roundtrip {T : Type} (uuidOf : T → String)
    (d : Dir T) (c : String) (r : T)
    (hempty : lookupFile d (resolveName c)
      = some (.records ([] : List T))) :
    ∃ d', insert uuidOf d c r = .ok () d' ∧
      query uuidOf d' c (uuidOf r) = .ok r d' := by
  refine ⟨setFile d (resolveName c) (.records [r]), ?_, ?_⟩
  · simp [insert, read_collection, hempty, containsId, write_collection]
  · have hq : lookupFile (setFile d (resolveName c) (.records [r]))
        (resolveName c) = some (.records [r]) :=
      lookupFile_setFile_self d _ _ (by simp [hempty])
    simp [query, read_collection, hq, findById]

theorem insert_then_query_roundtrip_witness :
    ∃ d', insert Rec.uuid [("users.json", Content.records ([] : List Rec))]
        "Users" (Rec.mk "u7" 42) = .ok () d' ∧
      query Rec.uuid d' "Users" (Rec.uuid (Rec.mk "u7" 42))
        = .ok (Rec.mk "u7" 42) d' :=
  insert_then_query_roundtrip Rec.uuid
    [("users.json", Content.records ([] : List Rec))] "Users"
    (Rec.mk "u7" 42) (by decide)

/-- C6: on a collection file whose content is not a valid JSON array of
the caller's record type, every record operation — insert, query,
update, delete and list — hits the unguarded decode `.unwrap()` in the
shared read path and panics instead of returning a typed error. -/
theorem invalid_content_panics {T : Type} (uuidOf : T → String)
    (d : Dir T) (c : String) (x : T) (k : String)
    (hbad : lookupFile d (resolveName c) = some Content.invalid) :
    insert uuidOf d c x = .panic ∧
    query uuidOf d c k = .panic ∧
    update uuidOf d c x = .panic ∧
    delete uuidOf d c k = .panic ∧
    list d c = (.panic : Outcome (List T) (Dir T)) := by
  simp [insert, query, update, delete, list, read_collection, hbad]

theorem invalid_content_panics_witness :
    insert Rec.uuid [("users.json", Content.invalid)] "users"
        (Rec.mk "u1" 1) = .panic ∧
    query Rec.uuid [("users.json", Content.invalid)] "users" "u1"
      = .panic ∧
    update Rec.uuid [("users.json", Content.invalid)] "users"
        (Rec.mk "u1" 1) = .panic ∧
    delete Rec.uuid [("users.json", Content.invalid)] "users" "u1"
      = .panic ∧
    list [("users.json", Content.invalid)] "users"
      = (.panic : Outcome (List Rec) (Dir Rec)) :=
  invalid_content_panics Rec.uuid [("users.json", Content.invalid)]
    "users" (Rec.mk "u1" 1) "u1" (by decide)

/-- C7: `create_collection` resolves a name to the lowercased name plus
`.json`; it fails with the already-exists error (writing nothing) when
that file exists, and otherwise creates the file holding the encoding of
the empty sequence — the literal array `[]` — so that listing the fresh
collection yields the empty sequence. -/
theorem create_collection_contract {T : Type} (d : Dir T)
    (name : String) :
    resolveName name = lowerStr name ++ ".json" ∧
    ((∃ ct, lookupFile d (resolveName name) = some ct) →
      create_collection d name = .err alreadyExistsErr d) ∧
    (lookupFile d (resolveName name) = none →
      create_collection d name
          = .ok () ((resolveName name, Content.records ([] : List T)) :: d) ∧
        list ((resolveName name, Content.records ([] : List T)) :: d) name
          = .ok ([] : List T)
              ((resolveName name, Content.records ([] : List T)) :: d)) := by
  refine ⟨rfl, ?_, ?_⟩
  · intro ⟨ct, h⟩
    simp [create_collection, h]
  · intro h
    constructor
    · simp [create_collection, h]
    · simp [list, read_collection, lookupFile]

theorem create_collection_contract_witness :
    create_collection ([] : Dir Rec) "Users"
        = .ok () [("users.json", Content.records ([] : List Rec))] ∧
      list [("users.json", Content.records ([] : List Rec))] "Users"
        = .ok ([] : List Rec)
            [("users.json", Content.records ([] : List Rec))] :=
  (create_collection_contract ([] : Dir Rec) "Users").2.2 (by decide)

/-- C2: identifier uniqueness is an invariant: starting from the empty
collection made by `create_collection` and applying any finite sequence
of successful insert, update and delete operations, the stored sequence
of that collection never holds two records sharing an identifier. -/
theorem uuid_uniqueness_invariant {T : Type} (uuidOf : T → String)
    (d0 d1 d2 : Dir T) (name : String)
    (hc : create_collection d0 name = .ok () d1)
    (hr : Reach uuidOf d1 d2) :
    ∀ l, lookupFile d2 (resolveName name) = some (.records l) →
      uuidNodup uuidOf l := by
  obtain ⟨-, rfl⟩ := create_collection_ok_inv d0 d1 name hc
  apply reach_preserves uuidOf _ _ d2 hr
  intro l hl
  simp [lookupFile] at hl
  subst hl
  simp [uuidNodup]

theorem uuid_uniqueness_invariant_witness :
    uuidNodup Rec.uuid [Rec.mk "u1" 5] :=
  uuid_uniqueness_invariant Rec.uuid [] [("users.json", Content.records [])]
    [("users.json", Content.records [Rec.mk "u1" 5])] "Users"
    (by decide)
    (Relation.ReflTransGen.single
      (RecOpStep.insert _ _ "users" (Rec.mk "u1" 5) (by decide)))
    [Rec.mk "u1" 5] (by decide)

/-- C4: `update` on an existing collection replaces the first stored
record whose identifier equals the new record's identifier, keeping all
other records and their order, and writes the sequence back; when no
stored record carries that identifier it fails with the not-found error
and the collection content is unchanged. -/
theorem update_contract {T : Type} (uuidOf : T → String) (d : Dir T)
    (c : String) (r : T) (l : List T)
    (hread : lookupFile d (resolveName c) = some (.records l)) :
    (∀ p y s, l = p ++ y :: s → (∀ z ∈ p, uuidOf z ≠ uuidOf r) →
      uuidOf y = uuidOf r →
      update uuidOf d c r
        = .ok () (setFile d (resolveName c) (.records (p ++ r :: s)))) ∧
    ((∀ z ∈ l, uuidOf z ≠ uuidOf r) →
      update uuidOf d c r = .err dataAbsentErr d) := by
  constructor
  · intro p y s hdecomp hp hy
    subst hdecomp
    have hu := updateList_split uuidOf r y p s hp hy
    simp [update, read_collection, hread, hu, write_collection]
  · intro hn
    have hu : updateList uuidOf r l = none :=
      (updateList_eq_none_iff uuidOf r l).mpr hn
    simp [update, read_collection, hread, hu]

theorem update_contract_witness :
    update Rec.uuid
        [("users.json", Content.records [Rec.mk "u1" 1, Rec.mk "u2" 2])]
        "users" (Rec.mk "u1" 9)
      = .ok ()
          [("users.json",
            Content.records [Rec.mk "u1" 9, Rec.mk "u2" 2])] :=
  (update_contract Rec.uuid
      [("users.json", Content.records [Rec.mk "u1" 1, Rec.mk "u2" 2])]
      "users" (Rec.mk "u1" 9) [Rec.mk "u1" 1, Rec.mk "u2" 2]
      (by decide)).1
    [] (Rec.mk "u1" 1) [Rec.mk "u2" 2] rfl (by decide) rfl

/-- C5: on a collection holding exactly one record with identifier `k`,
`delete` removes precisely that record — the survivors keep their
relative order and number one fewer — and a subsequent query of `k`
fails with the not-found error; deleting an absent identifier fails with
the not-found error. -/
theorem delete_contract {T : Type} (uuidOf : T → String) (d : Dir T)
    (c k : String) (l : List T)
    (hread : lookupFile d (resolveName c) = some (.records l)) :
    (l.countP (fun x => uuidOf x = k) = 1 →
      ∃ p y s, l = p ++ y :: s ∧ (∀ z ∈ p, uuidOf z ≠ k) ∧
        uuidOf y = k ∧
        delete uuidOf d c k
          = .ok () (setFile d (resolveName c) (.records (p ++ s))) ∧
        (p ++ s).length + 1 = l.length ∧
        query uuidOf (setFile d (resolveName c) (.records (p ++ s))) c k
          = .err dataAbsentErr
              (setFile d (resolveName c) (.records (p ++ s)))) ∧
    ((∀ z ∈ l, uuidOf z ≠ k) →
      delete uuidOf d c k = .err dataAbsentErr d) := by
  constructor
  · intro hcount
    cases hdl : deleteList uuidOf k l with
    | none =>
        exfalso
        have hall := (deleteList_eq_none_iff uuidOf k l).mp hdl
        have hz : l.countP (fun x => uuidOf x = k) = 0 := by
          rw [List.countP_eq_zero]
          intro a ha
          simpa using hall a ha
        rw [hz] at hcount
        cases hcount
    | some l' =>
        obtain ⟨p, y, s, rfl, hp, hy, rfl⟩ :=
          deleteList_eq_some uuidOf k l l' hdl
        have hcp : List.countP (fun x => decide (uuidOf x = k)) p = 0 := by
          rw [List.countP_eq_zero]
          intro a ha
          simpa using hp a ha
        have hcs : ∀ z ∈ s, uuidOf z ≠ k := by
          rw [List.countP_append, hcp, List.countP_cons_of_pos _ _
            (by simpa using hy)] at hcount
          have : List.countP (fun x => decide (uuidOf x = k)) s = 0 := by
            omega
          rw [List.countP_eq_zero] at this
          intro z hz
          simpa using this z hz
        refine ⟨p, y, s, rfl, hp, hy, ?_, ?_, ?_⟩
        · simp [delete, read_collection, hread, hdl, write_collection]
        · simp only [List.length_append, List.length_cons]
          omega
        · have hq : lookupFile
              (setFile d (resolveName c) (.records (p ++ s)))
              (resolveName c) = some (.records (p ++ s)) :=
            lookupFile_setFile_self d _ _ (by simp [hread])
          have hfind : findById uuidOf k (p ++ s) = none := by
            rw [findById_eq_none_iff]
            intro z hz
            rcases List.mem_append.mp hz with hz' | hz'
            · exact hp z hz'
            · exact hcs z hz'
          simp [query, read_collection, hq, hfind]
  · intro hn
    have hdl : deleteList uuidOf k l = none :=
      (deleteList_eq_none_iff uuidOf k l).mpr hn
    simp [delete, read_collection, hread, hdl]

theorem delete_contract_witness :
    ∃ p y s,
      [Rec.mk "u1" 1, Rec.mk "u2" 2] = p ++ y :: s ∧
      (∀ z ∈ p, Rec.uuid z ≠ "u1") ∧ Rec.uuid y = "u1" ∧
      delete Rec.uuid
          [("users.json",
            Content.records [Rec.mk "u1" 1, Rec.mk "u2" 2])]
          "users" "u1"
        = .ok () (setFile
            [("users.json",
              Content.records [Rec.mk "u1" 1, Rec.mk "u2" 2])]
            (resolveName "users") (Content.records (p ++ s))) ∧
      (p ++ s).length + 1 = [Rec.mk "u1" 1, Rec.mk "u2" 2].length ∧
      query Rec.uuid
          (setFile
            [("users.json",
              Content.records [Rec.mk "u1" 1, Rec.mk "u2" 2])]
            (resolveName "users") (Content.records (p ++ s)))
          "users" "u1"
        = .err dataAbsentErr (setFile
            [("users.json",
              Content.records [Rec.mk "u1" 1, Rec.mk "u2" 2])]
            (resolveName "users") (Content.records (p ++ s))) :=
  (delete_contract Rec.uuid
      [("users.json", Content.records [Rec.mk "u1" 1, Rec.mk "u2" 2])]
      "users" "u1" [Rec.mk "u1" 1, Rec.mk "u2" 2] (by decide)).1
    (by decide)

/-- C8: `rename_collection` fails with the not-found error when the old
file is absent and with the already-exists error when the new file
exists, touching nothing in either case; on success the old file is gone
and the new file holds exactly the old file's previous content. -/
theorem rename_collection_contract {T : Type} (d : Dir T)
    (old new : String) :
    (lookupFile d (resolveName old) = none →
      rename_collection d old new = .err collectionAbsentErr d) ∧
    (∀ ct ct', lookupFile d (resolveName old) = some ct →
      lookupFile d (resolveName new) = some ct' →
      rename_collection d old new = .err alreadyExistsErr d) ∧
    (∀ ct, (d.map Prod.fst).Nodup →
      lookupFile d (resolveName old) = some ct →
      lookupFile d (resolveName new) = none →
      ∃ d', rename_collection d old new = .ok () d' ∧
        lookupFile d' (resolveName old) = none ∧
        lookupFile d' (resolveName new) = some ct) := by
  refine ⟨?_, ?_, ?_⟩
  · intro h
    simp [rename_collection, h]
  · intro ct ct' h h'
    simp [rename_collection, h, h']
  · intro ct hnd h h'
    have hne : resolveName new ≠ resolveName old := by
      intro he
      rw [he, h] at h'
      cases h'
    refine ⟨(resolveName new, ct) :: removeFile d (resolveName old),
      ?_, ?_, ?_⟩
    · simp [rename_collection, h, h']
    · simp only [lookupFile, if_neg hne]
      exact lookupFile_removeFile_self d _ hnd
    · simp [lookupFile]

theorem rename_collection_contract_witness :
    ∃ d', rename_collection
        [("a.json", Content.records [Rec.mk "x" 1])] "a" "b"
        = .ok () d' ∧
      lookupFile d' (resolveName "a") = none ∧
      lookupFile d' (resolveName "b")
        = some (Content.records [Rec.mk "x" 1]) :=
  (rename_collection_contract
      [("a.json", Content.records [Rec.mk "x" 1])] "a" "b").2.2
    (Content.records [Rec.mk "x" 1]) (by decide) (by decide) (by decide)

/-- C9: `connect` fails with the invalid-path error when the path exists
and is not a directory, leaving the handle untouched; when the path does
not exist it creates it and all missing ancestors as directories; on
success the handle's root path is the given path, and connecting again
to the now-existing directory succeeds with the same handle. -/
theorem connect_contract (fs : OuterFS) (db : Database) (p : FsPath) :
    (pathLives fs p = true → pathIsDir fs p = false →
      connect fs db p = .err invalidPathErr (db, fs)) ∧
    (pathLives fs p = true → pathIsDir fs p = true →
      connect fs db p = .ok () (⟨p⟩, fs)) ∧
    (pathLives fs p = false →
      connect fs db p = .ok () (⟨p⟩, create_dir_all fs p) ∧
      (∀ q ∈ ancestors p, pathLives (create_dir_all fs p) q = true) ∧
      (∀ q ∈ ancestors p, lookupNode fs.nodes q = none →
        pathIsDir (create_dir_all fs p) q = true) ∧
      connect (create_dir_all fs p) ⟨p⟩ p
        = .ok () (⟨p⟩, create_dir_all fs p)) := by
  refine ⟨?_, ?_, ?_⟩
  · intro h1 h2
    simp [connect, h1, h2]
  · intro h1 h2
    simp [connect, h1, h2]
  · intro h0
    have hnone : lookupNode fs.nodes p = none := by
      cases hv : lookupNode fs.nodes p with
      | none => rfl
      | some v =>
          simp only [pathLives, hv] at h0
          cases h0
    have hpdir : pathIsDir (create_dir_all fs p) p = true :=
      pathIsDir_create_dir_all fs p p (self_mem_ancestors p) hnone
    refine ⟨by simp [connect, h0],
      fun q hq => pathLives_create_dir_all fs p q hq,
      fun q hq hn => pathIsDir_create_dir_all fs p q hq hn, ?_⟩
    simp [connect, pathLives_create_dir_all fs p p (self_mem_ancestors p),
      hpdir]

theorem connect_contract_witness :
    connect ⟨[(["a"], false)]⟩ Database.new ["a"]
      = .err invalidPathErr (Database.new, ⟨[(["a"], false)]⟩) :=
  (connect_contract ⟨[(["a"], false)]⟩ Database.new ["a"]).1
    (by decide) (by decide)

/-- C10: every engine failure is one error type, a struct holding only a
human-readable message string; two errors are equal exactly when their
message strings are, so distinct failure kinds are told apart only by
message text. -/
theorem dberror_single_message_kind :
    (∀ e : DBError, e = DBError.mk e.msg) ∧
    (∀ e₁ e₂ : DBError, e₁ = e₂ ↔ e₁.msg = e₂.msg) ∧
    invalidPathErr.msg = "Path is not a directory" ∧
    collectionAbsentErr.msg = "Collection does not exist" ∧
    dataAbsentErr.msg = "Data not found" ∧
    alreadyExistsErr.msg = "Collection already exists" ∧
    duplicateKeyErr.msg = "Data already exists" := by
  refine ⟨fun e => rfl,
    fun e₁ e₂ => ⟨fun h => h ▸ rfl, fun h => ?_⟩, rfl, rfl, rfl, rfl, rfl⟩
  cases e₁
  cases e₂
  simp_all

end Amandine
